import Mathlib

/-!
Shallow embedding of the finance-bot text-processing core
(`src/utils/textProcessing.js`, `src/config.js`, the message/budget handler,
the receipt handler and `src/database.js`).

Texts are modelled as `List Char` internally, with `String` wrappers at the
API surface.  Each JavaScript regular expression used by the code is
modelled by a dedicated matcher that reproduces the leftmost-match and
backtracking semantics of the concrete pattern (the character classes
involved are mostly disjoint, so the residual backtracking is small and is
spelled out where it matters).
-/

namespace FinanceBot

/-- JS `\s` whitespace class (ASCII part, which is all the code relies on). -/
def isWsChar (c : Char) : Bool :=
  c = ' ' || c = '\t' || c = '\n' || c = '\r' || c = '\x0b' || c = '\x0c'

/-- `\d` = `[0-9]` (code points 48-57). -/
def isDigitChar (c : Char) : Bool :=
  48 ≤ c.toNat && c.toNat ≤ 57

/-- Character class `[0-9.,]` of the amount patterns. -/
def isAmtChar (c : Char) : Bool :=
  isDigitChar c || c = '.' || c = ','

/-- `String.toLowerCase()` restricted to the characters the lexicon uses:
ASCII letters plus the accented Spanish letters of the configuration. -/
def lowChar (c : Char) : Char :=
  if 'A' ≤ c && c ≤ 'Z' then Char.ofNat (c.toNat + 32)
  else if c = 'Á' then 'á'
  else if c = 'É' then 'é'
  else if c = 'Í' then 'í'
  else if c = 'Ó' then 'ó'
  else if c = 'Ú' then 'ú'
  else if c = 'Ü' then 'ü'
  else if c = 'Ñ' then 'ñ'
  else c

def lowL (l : List Char) : List Char := l.map lowChar

def lowStr (s : String) : String := String.mk (lowL s.data)

/-- Case-sensitive literal prefix: returns the rest of the text on success. -/
def leadsL : List Char → List Char → Option (List Char)
  | [], l => some l
  | _ :: _, [] => none
  | p :: ps, c :: cs => if p = c then leadsL ps cs else none

/-- Case-insensitive literal prefix (the `/i` flag). -/
def ciLeadsL : List Char → List Char → Option (List Char)
  | [], l => some l
  | _ :: _, [] => none
  | p :: ps, c :: cs => if lowChar p = lowChar c then ciLeadsL ps cs else none

/-- JS `hay.includes(needle)` on character lists. -/
def containsSubL (needle : List Char) : List Char → Bool
  | [] => (leadsL needle []).isSome
  | c :: cs => (leadsL needle (c :: cs)).isSome || containsSubL needle cs

/-- JS `hay.includes(needle)` on strings. -/
def containsStr (hay needle : String) : Bool :=
  containsSubL needle.data hay.data

def dropWsL (l : List Char) : List Char := l.dropWhile isWsChar

/-- JS `String.trim()`. -/
def jsTrimL (l : List Char) : List Char :=
  ((l.dropWhile isWsChar).reverse.dropWhile isWsChar).reverse

/-- JS `s.replace(',', '.')`: only the first comma is replaced. -/
def replaceFirstComma : List Char → List Char
  | [] => []
  | c :: cs => if c = ',' then '.' :: cs else c :: replaceFirstComma cs

/-- `match[1].trim().replace(',', '.')` of the amount extractors. -/
def normAmt (l : List Char) : String :=
  String.mk (replaceFirstComma (jsTrimL l))

/-! ## Amount patterns (`config.amountPatterns`, tried in declared order) -/

/-- `/\$\s*([0-9.,]+)/`: leftmost `$`, optional whitespace, then a nonempty
run of `[0-9.,]`; the run is the capture. -/
def amtPat1 : List Char → Option (List Char)
  | [] => none
  | c :: cs =>
    if c = '$' then
      let cap := (dropWsL cs).takeWhile isAmtChar
      if cap.isEmpty then amtPat1 cs else some cap
    else amtPat1 cs

/-- Shared engine for `/([0-9.,]+)\s*LIT/` (`LIT` ∈ {`pesos`, `$`, `ars`}):
at each position a nonempty greedy `[0-9.,]` run, optional whitespace, then
the literal.  (Backtracking inside the run cannot help: a shortened run is
followed by a `[0-9.,]` character, which is neither whitespace nor a letter
of the literal.) -/
def amtSuffixPat (lit : List Char) (ci : Bool) : List Char → Option (List Char)
  | [] => none
  | c :: cs =>
    (if isAmtChar c then
      let cap := (c :: cs).takeWhile isAmtChar
      let rest := dropWsL ((c :: cs).dropWhile isAmtChar)
      if (if ci then ciLeadsL lit rest else leadsL lit rest).isSome then some cap
      else none
    else none).orElse (fun _ => amtSuffixPat lit ci cs)

/-- `/([0-9.,]+)\s*pesos/i` -/
def amtPat2 (l : List Char) : Option (List Char) :=
  amtSuffixPat "pesos".data true l

/-- `/([0-9.,]+)\s*\$/` -/
def amtPat3 (l : List Char) : Option (List Char) :=
  amtSuffixPat "$".data false l

/-- `/([0-9.,]+)\s*ars/i` -/
def amtPat4 (l : List Char) : Option (List Char) :=
  amtSuffixPat "ars".data true l

def amtVerbs : List (List Char) :=
  ["pagué".data, "gasté".data, "costó".data, "compré".data, "abono".data,
   "costo".data, "compra".data, "pago".data, "gasto".data]

/-- Tail `\s*\$?\s*([0-9.,]+)` of amount pattern 5.  (If the optional `$`
is present but not taken, the `[0-9.,]+` fails on `$` anyway, so the greedy
choice is forced.) -/
def amtPat5Tail (r : List Char) : Option (List Char) :=
  let r1 := dropWsL r
  let r2 := match r1 with
    | '$' :: t => dropWsL t
    | _ => r1
  let cap := r2.takeWhile isAmtChar
  if cap.isEmpty then none else some cap

/-- `(?:de)?` followed by the tail: the greedy branch (taking `de`) is tried
first, exactly as the regex engine does. -/
def amtPat5AfterVerb (r : List Char) : Option (List Char) :=
  let r1 := dropWsL r
  (match ciLeadsL "de".data r1 with
    | some r2 => amtPat5Tail r2
    | none => none).orElse (fun _ => amtPat5Tail r1)

/-- One position of
`/(?:pagué|gasté|costó|compré|abono|costo|compra|pago|gasto)\s*(?:de)?\s*\$?\s*([0-9.,]+)/i`:
the verb alternatives are tried in declared order, and a verb whose
continuation fails falls through to the next alternative. -/
def amtPat5Here (l : List Char) : Option (List Char) :=
  amtVerbs.foldr
    (fun v acc =>
      (match ciLeadsL v l with
        | some r => amtPat5AfterVerb r
        | none => none).orElse (fun _ => acc))
    none

def amtPat5 : List Char → Option (List Char)
  | [] => none
  | c :: cs => (amtPat5Here (c :: cs)).orElse (fun _ => amtPat5 cs)

/-- One position of `/\$?\s*([0-9.,]+)\s*(?:en|por)/i`. -/
def amtPat6Here (l : List Char) : Option (List Char) :=
  let r := match l with
    | '$' :: t => dropWsL t
    | _ => l
  let cap := r.takeWhile isAmtChar
  if cap.isEmpty then none
  else
    let a := dropWsL (r.dropWhile isAmtChar)
    if (ciLeadsL "en".data a).isSome || (ciLeadsL "por".data a).isSome then some cap
    else none

def amtPat6 : List Char → Option (List Char)
  | [] => none
  | c :: cs => (amtPat6Here (c :: cs)).orElse (fun _ => amtPat6 cs)

/-- `extractAmountFromText` (`textProcessing.js:38-48`): the six configured
patterns are tried in order and the first capture is normalized. -/
def extractAmountFromText (text : String) : Option String :=
  match amtPat1 text.data with
  | some s => some (normAmt s)
  | none =>
    match amtPat2 text.data with
    | some s => some (normAmt s)
    | none =>
      match amtPat3 text.data with
      | some s => some (normAmt s)
      | none =>
        match amtPat4 text.data with
        | some s => some (normAmt s)
        | none =>
          match amtPat5 text.data with
          | some s => some (normAmt s)
          | none =>
            match amtPat6 text.data with
            | some s => some (normAmt s)
            | none => none

/-! ## Lexicon (`config.js`) -/

/-- `config.expenseCategories` in declared (insertion) order. -/
def expenseCategoriesList : List (String × List String) :=
  [("supermercado", ["mercado", "super", "carrefour", "día", "coto", "jumbo",
      "walmart", "alimento", "verdulería", "frutería", "compras"]),
   ("restaurante", ["restaurante", "bar", "café", "menu", "comida", "almuerzo",
      "cena", "desayuno", "merienda"]),
   ("transporte", ["uber", "cabify", "taxi", "transporte", "combustible",
      "gasolina", "estacionamiento", "sube", "colectivo", "subte", "tren"]),
   ("servicios", ["electricidad", "agua", "gas", "internet", "teléfono",
      "celular", "factura", "servicio", "wifi", "etb", "wom"]),
   ("entretenimiento", ["cine", "teatro", "concierto", "evento", "streaming",
      "netflix", "spotify", "disney", "hbo", "prime", "claude"]),
   ("salud", ["farmacia", "médico", "hospital", "clínica", "consulta",
      "remedio", "medicina", "bodytech", "gimnasio"]),
   ("tecnología", ["computadora", "pc", "laptop", "celular", "gadget",
      "auricular", "earbuds", "hardware", "software", "app", "aplicación"]),
   ("snacks", ["dulces", "snacks", "golosinas", "chocolate", "galletas",
      "bebidas", "refresco", "café"]),
   ("educación", ["universidad", "curso", "libro", "semestre", "matrícula",
      "clases"]),
   ("otros", [])]

/-- `config.intentKeywords` in declared (insertion) order. -/
def intentKeywordsList : List (String × List String) :=
  [("gasto", ["gasté", "pagué", "compré", "abono", "pagado", "costo",
      "compra", "gasto", "pago"]),
   ("ingreso", ["cobré", "recibí", "ingresé", "ingreso", "depósito",
      "transferencia", "sueldo", "honorarios", "cobro", "freelance"]),
   ("meta", ["meta", "objetivo", "ahorrar", "ahorro", "reservar", "apartado",
      "destinar"]),
   ("reporte", ["reporte", "informe", "estadísticas", "análisis", "balance",
      "resumen"]),
   ("presupuesto", ["presupuesto", "límite", "asignar", "destinar"])]

/-! ## Category and intent classifiers -/

/-- Does one category's keyword list hit the (already lowercased) text?
(`textLower.includes(keyword.toLowerCase())`, `textProcessing.js:179-183`). -/
def catHit (tl : List Char) (p : String × List String) : Bool :=
  p.2.any (fun kw => containsSubL (lowL kw.data) tl)

/-- `categorizeExpense` (`textProcessing.js:175-187`): first category in
declared order with a keyword hit, else the sentinel `"otros"`. -/
def categorizeExpense (text : String) : String :=
  match expenseCategoriesList.find? (catHit (lowL text.data)) with
  | some p => p.1
  | none => "otros"

/-- Does one intent group's keyword list hit the lowercased text? -/
def intentHit (tl : List Char) (p : String × List String) : Bool :=
  p.2.any (fun kw => containsSubL kw.data tl)

/-- `getIntent` (`textProcessing.js:13-31`): first intent group in declared
order with a keyword hit; otherwise `gasto` if an amount is extractable from
the (raw) text, else `null` (modelled as `none`, the unknown sentinel). -/
def getIntent (text : String) : Option String :=
  match intentKeywordsList.find? (intentHit (lowL text.data)) with
  | some p => some p.1
  | none =>
    if (extractAmountFromText text).isSome then some "gasto" else none

/-- `detectIntent` (`textProcessing.js:231-249`); its `tokens` argument is
unused by the source.  Note that here the amount fallback runs on the
already-lowercased full text. -/
def detectIntent (fullText : String) : Option String :=
  if (intentKeywordsList.head!.2).any (fun kw => containsStr fullText kw) then
    some "gasto"
  else if ((intentKeywordsList.get! 1).2).any (fun kw => containsStr fullText kw) then
    some "ingreso"
  else if (extractAmountFromText fullText).isSome then some "gasto"
  else none

/-! ## Dates -/

/-- Calendar dates; `month` is 1-12 as rendered (`getMonth() + 1`). -/
structure SimpleDate where
  year : Nat
  month : Nat
  day : Nat
deriving DecidableEq, Repr

/-- Leap-year rule of the proleptic Gregorian calendar used by JS `Date`. -/
def isLeapYear (y : Nat) : Bool :=
  (y % 4 = 0 && y % 100 ≠ 0) || y % 400 = 0

def daysInMonth (y m : Nat) : Nat :=
  if m = 2 then (if isLeapYear y then 29 else 28)
  else if m = 4 || m = 6 || m = 9 || m = 11 then 30
  else 31

def validDate (d : SimpleDate) : Bool :=
  1 ≤ d.month && d.month ≤ 12 && 1 ≤ d.day && d.day ≤ daysInMonth d.year d.month

/-- `setDate(getDate() - 1)` on a valid date: JS normalizes day 0 to the
last day of the previous month (and December of the previous year). -/
def prevDay (d : SimpleDate) : SimpleDate :=
  if 1 < d.day then ⟨d.year, d.month, d.day - 1⟩
  else if 1 < d.month then ⟨d.year, d.month - 1, daysInMonth d.year (d.month - 1)⟩
  else ⟨d.year - 1, 12, 31⟩

/-- `String(n).padStart(2, '0')`. -/
def pad2 (n : Nat) : String :=
  if n < 10 then "0" ++ toString n else toString n

/-- The `year-month-day` rendering shared by `formatDate` and the explicit
date branch (month and day zero-padded to two digits, year as printed):
the concatenation `${year}-${month}-${day}`. -/
def dateString (y m d : Nat) : String :=
  String.mk ((toString y).data ++ '-' :: (pad2 m).data ++ '-' :: (pad2 d).data)

/-- `formatDate` (`textProcessing.js:95-100`). -/
def formatDate (d : SimpleDate) : String :=
  dateString d.year d.month d.day

/-- Parse one or two digit characters greedily (`\d{1,2}`); the bounded
quantifier backtracks from two digits to one if the continuation fails.
`k` is the continuation on (value, rest). -/
def take12Digits (l : List Char) (k : Nat → List Char → Option α) : Option α :=
  match l with
  | a :: b :: rest =>
    if isDigitChar a then
      if isDigitChar b then
        (k ((a.toNat - 48) * 10 + (b.toNat - 48)) rest).orElse
          (fun _ => k (a.toNat - 48) (b :: rest))
      else k (a.toNat - 48) (b :: rest)
    else none
  | [a] => if isDigitChar a then k (a.toNat - 48) [] else none
  | [] => none

/-- Separator class `[\/\-\.]` of `config.datePatterns[0]`. -/
def isDateSep (c : Char) : Bool :=
  c = '/' || c = '-' || c = '.'

/-- Optional group `(?:[\/\-\.](\d{2,4}))?`: greedy, taking up to four
digits; with nothing after it in the pattern, it succeeds with the longest
digit run of length 2-4 or contributes nothing. -/
def dateYearOpt (l : List Char) : Option Nat :=
  match l with
  | s :: rest =>
    if isDateSep s then
      let ds := (rest.takeWhile isDigitChar).take 4
      if 2 ≤ ds.length then
        some (ds.foldl (fun n c => n * 10 + (c.toNat - 48)) 0)
      else none
    else none
  | [] => none

/-- The result assembled once day and month are captured. -/
def datePat0Pair (day month : Nat) (rest3 : List Char) :
    Option (Nat × Nat × Option Nat) :=
  some (day, month, dateYearOpt rest3)

/-- After the day group: a separator, then the month group. -/
def datePat0AfterDay (day : Nat) (rest : List Char) :
    Option (Nat × Nat × Option Nat) :=
  match rest with
  | s :: rest2 =>
    if isDateSep s then take12Digits rest2 (datePat0Pair day) else none
  | [] => none

/-- One position of
`/(?:el|del|fecha)\s*(\d{1,2})[\/\-\.](\d{1,2})(?:[\/\-\.](\d{2,4}))?/i`
after the introducing word: `\s*`, day, separator, month, optional year. -/
def datePat0After (r : List Char) : Option (Nat × Nat × Option Nat) :=
  take12Digits (dropWsL r) datePat0AfterDay

/-- One position of the full first date pattern: the alternatives
`el`, `del`, `fecha` are tried in order and fall through on failure. -/
def datePat0Here (l : List Char) : Option (Nat × Nat × Option Nat) :=
  (["el".data, "del".data, "fecha".data].foldr
    (fun w acc =>
      (match ciLeadsL w l with
        | some r => datePat0After r
        | none => none).orElse (fun _ => acc))
    none)

def datePat0 : List Char → Option (Nat × Nat × Option Nat)
  | [] => none
  | c :: cs => (datePat0Here (c :: cs)).orElse (fun _ => datePat0 cs)

/-- `extractDateFromText` (`textProcessing.js:55-88`), with the processing
date (`new Date()`) passed explicitly.  The two-digit-year adjustment and
the relative keywords (`hoy` before `ayer` before `anteayer`) follow the
source; `setDate(getDate() - n)` is modelled by iterated `prevDay`. -/
def extractDateFromText (text : String) (today : SimpleDate) : String :=
  match datePat0 text.data with
  | some (day, month, y) =>
    let year0 := y.getD today.year
    let year :=
      if year0 < 100 then (if year0 < 50 then year0 + 2000 else year0 + 1900)
      else year0
    dateString year month day
  | none =>
    let tl := lowL text.data
    if containsSubL "hoy".data tl then formatDate today
    else if containsSubL "ayer".data tl then formatDate (prevDay today)
    else if containsSubL "anteayer".data tl then formatDate (prevDay (prevDay today))
    else formatDate today

/-- Decidable check that a rendered date string denotes an existing
calendar day (used to state the spec's "valid calendar date" property). -/
def validDateString (s : String) : Bool :=
  let parts := s.data.splitOn '-'
  match parts with
  | [ys, ms, ds] =>
    ys ≠ [] && ms ≠ [] && ds ≠ [] &&
    ys.all isDigitChar && ms.all isDigitChar && ds.all isDigitChar &&
    (let num := fun (l : List Char) => l.foldl (fun n c => n * 10 + (c.toNat - 48)) 0
     validDate ⟨num ys, num ms, num ds⟩)
  | _ => false

/-! ## Concept extraction (`extractConceptFromText`, `textProcessing.js:108-168`) -/

/-- JS `\w` = `[A-Za-z0-9_]`. -/
def isAsciiWordChar (c : Char) : Bool :=
  ('a' ≤ c && c ≤ 'z') || ('A' ≤ c && c ≤ 'Z') || isDigitChar c || c = '_'

/-- Character class `[\wáéíóúüñ\s]` under the `/i` flag (so the uppercase
accented letters match as well). -/
def isConceptChar (c : Char) : Bool :=
  isAsciiWordChar c || isWsChar c ||
  c = 'á' || c = 'é' || c = 'í' || c = 'ó' || c = 'ú' || c = 'ü' || c = 'ñ' ||
  c = 'Á' || c = 'É' || c = 'Í' || c = 'Ó' || c = 'Ú' || c = 'Ü' || c = 'Ñ'

def conceptArts : List (List Char) :=
  ["el".data, "la".data, "los".data, "las".data]

/-- Match of `\s+(el|la|los|las)?\s*([\wáéíóúüñ\s]+)` against `r` (the text
after the preposition), returning group 2.  The whitespace class is
contained in the capture class, which makes the backtracking resolvable in
closed form:
* with maximal `\s+` and an article alternative that matches, the capture is
  the maximal capture-class run after the following whitespace; if that run
  is empty but whitespace follows the article, backtracking of the inner
  `\s*` leaves a single whitespace character as the capture;
* with no article, the capture is the maximal run after `\s+`; if it is
  empty and the leading whitespace run has length at least two, `\s+` gives
  one character back and the capture is that single whitespace character;
* otherwise the position fails. -/
def conceptCapAt (r : List Char) : Option (List Char) :=
  match r with
  | [] => none
  | c :: _ =>
    if !isWsChar c then none
    else
      let n := (r.takeWhile isWsChar).length
      let r1 := dropWsL r
      let artRes := conceptArts.foldr
        (fun art acc =>
          (match ciLeadsL art r1 with
            | some r2 =>
              let capA := (dropWsL r2).takeWhile isConceptChar
              if !capA.isEmpty then some capA
              else
                match r2 with
                | c2 :: _ =>
                  if isWsChar c2 then some [(r2.takeWhile isWsChar).getLastD ' ']
                  else none
                | [] => none
            | none => none).orElse (fun _ => acc))
        none
      match artRes with
      | some cap => some cap
      | none =>
        let capE := r1.takeWhile isConceptChar
        if !capE.isEmpty then some capE
        else if 2 ≤ n then some [(r.takeWhile isWsChar).getLastD ' ']
        else none

/-- Leftmost match of the first-pass concept pattern for one preposition. -/
def scanConcept (prep : List Char) : List Char → Option (List Char)
  | [] => none
  | c :: cs =>
    (match ciLeadsL prep (c :: cs) with
      | some r => conceptCapAt r
      | none => none).orElse (fun _ => scanConcept prep cs)

/-- Does `l` as a whole match `\$?\s*[0-9.,]+\s*(?:pesos)?` (the
end-anchored amount-stripping pattern, `textProcessing.js:124`)? -/
def amtSuffixWhole (l : List Char) : Bool :=
  let l1 := match l with
    | '$' :: t => t
    | _ => l
  let l2 := dropWsL l1
  let run := l2.takeWhile isAmtChar
  if run.isEmpty then false
  else
    let l3 := dropWsL (l2.dropWhile isAmtChar)
    l3.isEmpty ||
      (match leadsL "pesos".data l3 with
        | some [] => true
        | _ => false)

/-- `concept.replace(/\$?\s*[0-9.,]+\s*(?:pesos)?$/, '')`: the match, when
it exists, runs from its leftmost possible start to the end of the string. -/
def stripAmtSuffix : List Char → List Char
  | [] => []
  | c :: cs => if amtSuffixWhole (c :: cs) then [] else c :: stripAmtSuffix cs

/-- The optional tail `(?:[\/\-\.](\d{2,4}))?$` of the date-stripping
pattern, checked against the whole remainder. -/
def dateSuffixTail (l : List Char) : Bool :=
  match l with
  | [] => true
  | s :: rest =>
    isDateSep s && rest.all isDigitChar && 2 ≤ rest.length && rest.length ≤ 4

/-- Does `l` as a whole match `\d{1,2}[\/\-\.]\d{1,2}(?:[\/\-\.](\d{2,4}))?`
(the end-anchored date-stripping pattern, `textProcessing.js:125`)? -/
def dateSuffixWhole (l : List Char) : Bool :=
  (take12Digits l (fun _ rest =>
    match rest with
    | s :: rest2 =>
      if isDateSep s then
        take12Digits rest2 (fun _ rest3 =>
          if dateSuffixTail rest3 then some () else none)
      else none
    | [] => none)).isSome

def stripDateSuffix : List Char → List Char
  | [] => []
  | c :: cs => if dateSuffixWhole (c :: cs) then [] else c :: stripDateSuffix cs

/-- `charAt(0).toUpperCase()` for the characters in play. -/
def upChar (c : Char) : Char :=
  if 'a' ≤ c && c ≤ 'z' then Char.ofNat (c.toNat - 32)
  else if c = 'á' then 'Á'
  else if c = 'é' then 'É'
  else if c = 'í' then 'Í'
  else if c = 'ó' then 'Ó'
  else if c = 'ú' then 'Ú'
  else if c = 'ü' then 'Ü'
  else if c = 'ñ' then 'Ñ'
  else c

def capitalizeL : List Char → List Char
  | [] => []
  | c :: cs => upChar c :: cs

def conceptPreps : List (List Char) :=
  ["en".data, "de".data, "para".data, "por".data, "a".data]

/-- The cleanup applied to a first-pass capture
(`trim`, strip trailing amount, `trim`, strip trailing date, `trim`). -/
def cleanConcept1 (cap : List Char) : List Char :=
  jsTrimL (stripDateSuffix (jsTrimL (stripAmtSuffix (jsTrimL cap))))

/-- The general preposition pass (`textProcessing.js:115-131`): the first
preposition, in declared order, whose leftmost capture cleans to a nonempty
concept yields the capitalized concept; a preposition whose capture cleans
to empty is skipped, like one with no match at all. -/
def firstPassConcept (tl : List Char) : Option String :=
  conceptPreps.foldr
    (fun prep acc =>
      (match scanConcept prep tl with
        | some cap =>
          let c := cleanConcept1 cap
          if c.isEmpty then none else some (String.mk (capitalizeL c))
        | none => none).orElse (fun _ => acc))
    none

/-- Match of `\s+([\wáéíóúüñ\s]+)` (income second-pass pattern) against the
text after the preposition; same backtracking analysis as `conceptCapAt`
without the article group. -/
def incomeCapAt (r : List Char) : Option (List Char) :=
  match r with
  | [] => none
  | c :: _ =>
    if !isWsChar c then none
    else
      let n := (r.takeWhile isWsChar).length
      let r1 := dropWsL r
      let capE := r1.takeWhile isConceptChar
      if !capE.isEmpty then some capE
      else if 2 ≤ n then some [(r.takeWhile isWsChar).getLastD ' ']
      else none

def scanIncome (prep : List Char) : List Char → Option (List Char)
  | [] => none
  | c :: cs =>
    (match ciLeadsL prep (c :: cs) with
      | some r => incomeCapAt r
      | none => none).orElse (fun _ => scanIncome prep cs)

/-- The income-specific pass (`textProcessing.js:134-151`): prepositions
`por` then `de`; a nonempty cleaned capture containing `freelance` or
`proyecto` gains the `"Freelance: "` label. -/
def incomePassConcept (tl : List Char) : Option String :=
  ["por".data, "de".data].foldr
    (fun prep acc =>
      (match scanIncome prep tl with
        | some cap =>
          let c := jsTrimL (stripAmtSuffix (jsTrimL cap))
          if c.isEmpty then none
          else if containsSubL "freelance".data (lowL c) ||
                  containsSubL "proyecto".data (lowL c) then
            some ("Freelance: " ++ String.mk (capitalizeL c))
          else some (String.mk (capitalizeL c))
        | none => none).orElse (fun _ => acc))
    none

/-- `extractConceptFromText` (`textProcessing.js:108-168`); `tipo` is the
possibly-null transaction type actually passed by `processText`. -/
def extractConceptFromText (text : String) (tipo : Option String) : String :=
  let tl := lowL text.data
  match firstPassConcept tl with
  | some c => c
  | none =>
    if tipo = some "ingreso" then
      match incomePassConcept tl with
      | some r => r
      | none =>
        if containsSubL "freelance".data tl || containsSubL "proyecto".data tl then
          "Freelance"
        else "Ingreso variable"
    else
      let cat := categorizeExpense text
      if cat ≠ "otros" then String.mk (capitalizeL cat.data)
      else "No especificado"

/-! ## Message interpretation (`processText`, `textProcessing.js:195-223`) -/

/-- The transaction record assembled by `processText` (the `timestamp`
field, a wall-clock reading, is outside the embedding). -/
structure TxData where
  tipo : Option String
  monto : Option String
  fecha : String
  concepto : String
  categoria : String
  texto_completo : String
deriving DecidableEq, Repr

/-- `processText(text, forcedIntent)` with the processing date explicit. -/
def processText (text : String) (forcedIntent : Option String)
    (today : SimpleDate) : TxData :=
  let tl := lowStr text
  let tipo := match forcedIntent with
    | some t => some t
    | none => detectIntent tl
  { tipo := tipo
    monto := extractAmountFromText text
    fecha := extractDateFromText text today
    concepto := extractConceptFromText text tipo
    categoria := if tipo = some "gasto" then categorizeExpense text else "ingreso"
    texto_completo := text }

/-! ## Budget fuzzy category match (`processBudget`, message handler 59-110) -/

/-- One keyword's contribution to the running best budget match
(`categoryName.includes(keyword)`, scored by the keyword's length;
strict improvement updates). -/
def budgetKwStep (name : List Char) (cat : String)
    (st : Option String × Nat) (kw : String) : Option String × Nat :=
  if containsSubL kw.data name then
    if st.2 < kw.length then (some cat, kw.length) else st
  else st

/-- One category's contribution to the running best match: the mutual
key-containment rule scored by `min` of lengths, then every keyword. -/
def budgetStep (name : List Char) (s : Option String × Nat)
    (p : String × List String) : Option String × Nat :=
  let s1 :=
    if containsSubL p.1.data name || containsSubL name p.1.data then
      let score := min p.1.length name.length
      if s.2 < score then (some p.1, score) else s
    else s
  p.2.foldl (budgetKwStep name p.1) s1

def bestCategoryAux (name : List Char) (l : List (String × List String))
    (s : Option String × Nat) : Option String × Nat :=
  l.foldl (budgetStep name) s

/-- The fuzzy category selection of the budget-update flow; `none` is the
failure signal (no budget entry updated). -/
def bestBudgetCategory (name : String) : Option String :=
  (bestCategoryAux name.data expenseCategoriesList (none, 0)).1

/-! ## Receipt total-amount extraction (`extractAmount`, receipt handler 431-448) -/

/-- Continuation of a labeled pattern after its label:
`\s*` (and `:?\s*` when `colon`), `[\$€]?`, `\s*`, then the capture. -/
def rcptAmtAt (colon : Bool) (r : List Char) : Option (List Char) :=
  let r1 := dropWsL r
  let r1b :=
    if colon then
      match r1 with
      | ':' :: t => dropWsL t
      | _ => r1
    else r1
  let r2 := match r1b with
    | c :: t => if c = '$' || c = '€' then dropWsL t else r1b
    | [] => r1b
  let cap := r2.takeWhile isAmtChar
  if cap.isEmpty then none else some cap

def scanLabel (label : List Char) (colon : Bool) : List Char → Option (List Char)
  | [] => none
  | c :: cs =>
    (match ciLeadsL label (c :: cs) with
      | some r => rcptAmtAt colon r
      | none => none).orElse (fun _ => scanLabel label colon cs)

/-- `/[\$€]\s*([0-9.,]+)/`, the bare currency-symbol fallback. -/
def rcptBarePat : List Char → Option (List Char)
  | [] => none
  | c :: cs =>
    (if c = '$' || c = '€' then
      let cap := (dropWsL cs).takeWhile isAmtChar
      if cap.isEmpty then none else some cap
    else none).orElse (fun _ => rcptBarePat cs)

/-- The three label-anchored patterns of the receipt `extractAmount`, in
declared order: `TOTAL`, `IMPORTE`, `TOTAL` with optional colon. -/
def labeledTotalCapture (text : String) : Option (List Char) :=
  (scanLabel "TOTAL".data false text.data).orElse (fun _ =>
    (scanLabel "IMPORTE".data false text.data).orElse (fun _ =>
      scanLabel "TOTAL".data true text.data))

/-- Receipt `extractAmount`: labeled totals first, then the bare symbol. -/
def extractAmount (text : String) : Option String :=
  match labeledTotalCapture text with
  | some cap => some (normAmt cap)
  | none =>
    match rcptBarePat text.data with
    | some cap => some (normAmt cap)
    | none => none

/-! ## Storage (`database.js`) -/

structure FixedExpense where
  nombre : String
  monto : Nat
  categoria : String
  fechaPago : Nat
deriving DecidableEq

structure FixedIncome where
  nombre : String
  monto : Nat
  fechaIngreso : Nat
  frecuencia : String
deriving DecidableEq

structure FinancialGoal where
  nombre : String
  montoObjetivo : Nat
  montoAcumulado : Nat
  fecha : String
deriving DecidableEq

/-- The stored document (`database.js:23-51`); the JS budget object is an
ordered key/value map. -/
structure FinancialDocument where
  transactions : List TxData
  fixedExpenses : List FixedExpense
  fixedIncomes : List FixedIncome
  financialGoals : List FinancialGoal
  budget : List (String × Nat)
deriving DecidableEq

/-- `registerTransaction` (`database.js:57-61`): load, `push`, save —
modelled as the document transformation it performs. -/
def registerTransaction (data : TxData) (db : FinancialDocument) :
    FinancialDocument :=
  { db with transactions := db.transactions ++ [data] }

/-- A sample record, used to instantiate the storage theorems. -/
def sampleTx : TxData :=
  { tipo := some "gasto", monto := some "45000", fecha := "2024-03-09",
    concepto := "Supermercado ayer", categoria := "supermercado",
    texto_completo := "Gasté $45000 en el supermercado ayer" }

/-- A previously stored sample record. -/
def sampleOldTx : TxData :=
  { tipo := some "ingreso", monto := some "100", fecha := "2024-01-15",
    concepto := "Salario", categoria := "ingreso",
    texto_completo := "cobré $100" }

/-- A sample stored document with one prior transaction. -/
def sampleDoc : FinancialDocument :=
  { transactions := [sampleOldTx],
    fixedExpenses :=
      [{ nombre := "Internet ETB", monto := 120000,
         categoria := "servicios", fechaPago := 15 }],
    fixedIncomes :=
      [{ nombre := "Salario", monto := 1718010, fechaIngreso := 15,
         frecuencia := "mensual" }],
    financialGoals :=
      [{ nombre := "Pantalla nueva", montoObjetivo := 600000,
         montoAcumulado := 0, fecha := "2024-12-31" }],
    budget := [("supermercado", 450000)] }

/-! # Theorems -/

/-- **C1.** Whenever amount pattern 1 (currency symbol before the value)
matches, `extractAmountFromText` returns exactly its capture, trimmed and
with the first comma replaced by a period, regardless of the lower-priority
patterns 2-6; and when none of the six patterns matches, it returns `null`. -/
theorem amount_pattern1_priority (text : String) :
    (∀ cap, amtPat1 text.data = some cap →
      extractAmountFromText text = some (normAmt cap)) ∧
    (amtPat1 text.data = none → amtPat2 text.data = none →
     amtPat3 text.data = none → amtPat4 text.data = none →
     amtPat5 text.data = none → amtPat6 text.data = none →
     extractAmountFromText text = none) := by
  constructor
  · intro cap h
    simp [extractAmountFromText, h]
  · intro h1 h2 h3 h4 h5 h6
    simp [extractAmountFromText, h1, h2, h3, h4, h5, h6]

/-- Witness for C1: a text where pattern 1 and the lower-priority pattern 2
both match, and a text matched by no pattern. -/
theorem amount_pattern1_priority_witness :
    amtPat1 "$12,5 y 99 pesos".data = some "12,5".data ∧
    amtPat2 "$12,5 y 99 pesos".data = some "99".data ∧
    extractAmountFromText "$12,5 y 99 pesos" = some "12.5" ∧
    extractAmountFromText "hola mundo" = none := by
  refine ⟨by decide, by decide, ?_, ?_⟩
  · exact ((amount_pattern1_priority "$12,5 y 99 pesos").1 "12,5".data
      (by decide)).trans (by decide)
  · exact (amount_pattern1_priority "hola mundo").2 (by decide) (by decide)
      (by decide) (by decide) (by decide) (by decide)

/-- **C2 counterexample.** On the end-to-end scenario input, the concept is
`"Supermercado ayer"`: the capture class `[\wáéíóúüñ\s]` also swallows the
trailing word `ayer`, so the record's concept is neither `"Supermercado"`
nor the category-derived label (which is also `"Supermercado"`). -/
theorem e2e_scenario_concept_counterexample :
    (processText "Gasté $45000 en el supermercado ayer" (some "gasto")
        ⟨2024, 3, 10⟩).concepto = "Supermercado ayer" ∧
    (processText "Gasté $45000 en el supermercado ayer" (some "gasto")
        ⟨2024, 3, 10⟩).concepto ≠ "Supermercado" ∧
    String.mk (capitalizeL (categorizeExpense
        "Gasté $45000 en el supermercado ayer").data) = "Supermercado" := by
  refine ⟨by decide, by decide, by decide⟩

/-- **C2 amended.** The scenario record has type `gasto`, amount `"45000"`,
date `"2024-03-09"`, category `"supermercado"`, and concept
`"Supermercado ayer"` (the captured phrase including the trailing `ayer`). -/
theorem e2e_scenario_amended :
    processText "Gasté $45000 en el supermercado ayer" (some "gasto")
        ⟨2024, 3, 10⟩ =
      { tipo := some "gasto", monto := some "45000", fecha := "2024-03-09",
        concepto := "Supermercado ayer", categoria := "supermercado",
        texto_completo := "Gasté $45000 en el supermercado ayer" } := by
  decide

/-- **C8 counterexample.** An income message whose raw text (and captured
phrase) contains `proyecto` is answered by the general preposition pass,
which returns the concept `"Proyecto"` without any `"Freelance:"` label. -/
theorem income_freelance_counterexample :
    extractConceptFromText "recibí 500 por proyecto" (some "ingreso")
        = "Proyecto" ∧
    containsSubL "proyecto".data (lowL "recibí 500 por proyecto".data)
        = true ∧
    (leadsL "Freelance:".data "Proyecto".data).isSome = false := by
  refine ⟨by decide, by decide, by decide⟩

/-- **C8 amended.** A concept found by the general preposition pass is
returned as-is for income messages (no `"Freelance:"` label is ever added
to it); only when neither the general pass nor the income-specific pass
captures a usable phrase does the extractor fall back to the fixed
`"Freelance"` label (when the text contains `freelance` or `proyecto`) or
to `"Ingreso variable"` (when it contains neither). -/
theorem income_concept_amended (text : String) :
    (∀ c, firstPassConcept (lowL text.data) = some c →
      extractConceptFromText text (some "ingreso") = c) ∧
    (firstPassConcept (lowL text.data) = none →
     incomePassConcept (lowL text.data) = none →
     extractConceptFromText text (some "ingreso") =
       (if containsSubL "freelance".data (lowL text.data) ||
           containsSubL "proyecto".data (lowL text.data) then "Freelance"
        else "Ingreso variable")) := by
  constructor
  · intro c h
    simp [extractConceptFromText, h]
  · intro h1 h2
    simp [extractConceptFromText, h1, h2]

/-- Witness for C8 amended: both fallback labels are reached. -/
theorem income_concept_amended_witness :
    extractConceptFromText "freelance" (some "ingreso") = "Freelance" ∧
    extractConceptFromText "cobré dinero" (some "ingreso")
        = "Ingreso variable" := by
  constructor
  · exact ((income_concept_amended "freelance").2 (by decide)
      (by decide)).trans (by decide)
  · exact ((income_concept_amended "cobré dinero").2 (by decide)
      (by decide)).trans (by decide)

/-- **C9.** Receipt total extraction prefers the `TOTAL`/`IMPORTE`-labeled
patterns: whenever one of them matches, its capture (first comma replaced
by a period) is the result even if a bare currency-symbol amount also
occurs; the scenario text yields `"23.500"`; and when no pattern matches
at all the result is `null`. -/
theorem receipt_total_priority (text : String) :
    (∀ cap, labeledTotalCapture text = some cap →
      extractAmount text = some (normAmt cap)) ∧
    (labeledTotalCapture text = none → rcptBarePat text.data = none →
      extractAmount text = none) ∧
    extractAmount "RECIBO\nLeche 3.200\nTOTAL $ 23.500" = some "23.500" := by
  refine ⟨?_, ?_, by decide⟩
  · intro cap h
    simp [extractAmount, h]
  · intro h1 h2
    simp [extractAmount, h1, h2]

/-- Witness for C9: the scenario text has both a labeled total and a bare
currency amount, and the labeled capture wins; a plain text has neither. -/
theorem receipt_total_priority_witness :
    labeledTotalCapture "RECIBO\nLeche 3.200\nTOTAL $ 23.500"
        = some "23.500".data ∧
    rcptBarePat "RECIBO\nLeche 3.200\nTOTAL $ 23.500".data
        = some "23.500".data ∧
    extractAmount "RECIBO\nLeche 3.200\nTOTAL $ 23.500" = some "23.500" ∧
    extractAmount "nada aqui" = none := by
  refine ⟨by decide, by decide, ?_, ?_⟩
  · exact ((receipt_total_priority "RECIBO\nLeche 3.200\nTOTAL $ 23.500").1
      "23.500".data (by decide)).trans (by decide)
  · exact (receipt_total_priority "nada aqui").2.1 (by decide) (by decide)

/-- **C10.** `registerTransaction` appends the record at the end of the
stored transactions, preserving every previously stored transaction (value
and position), and leaves the fixed expenses, fixed incomes, financial
goals and budget untouched. -/
theorem register_transaction_frame (data : TxData) (db : FinancialDocument) :
    (registerTransaction data db).transactions = db.transactions ++ [data] ∧
    (∀ i, i < db.transactions.length →
      (registerTransaction data db).transactions.get? i
        = db.transactions.get? i) ∧
    (registerTransaction data db).fixedExpenses = db.fixedExpenses ∧
    (registerTransaction data db).fixedIncomes = db.fixedIncomes ∧
    (registerTransaction data db).financialGoals = db.financialGoals ∧
    (registerTransaction data db).budget = db.budget := by
  refine ⟨rfl, ?_, rfl, rfl, rfl, rfl⟩
  intro i hi
  simp only [registerTransaction, List.get?_eq_getElem?]
  rw [List.getElem?_append, if_pos hi]

/-- Witness for C10: the stored sample transaction is untouched in place. -/
theorem register_transaction_frame_witness :
    0 < sampleDoc.transactions.length ∧
    (registerTransaction sampleTx sampleDoc).transactions.get? 0
      = sampleDoc.transactions.get? 0 :=
  ⟨by simp [sampleDoc],
   (register_transaction_frame sampleTx sampleDoc).2.1 0 (by simp [sampleDoc])⟩

/-- **C4.** For a text that contains `ayer`, matches no explicit numeric
date pattern and does not contain `hoy`, the extracted date is the
processing date minus one day, with the month and year rollover of the
calendar decrement spelled out. -/
theorem yesterday_rollover (text : String) (today : SimpleDate)
    (hpat : datePat0 text.data = none)
    (hhoy : containsSubL "hoy".data (lowL text.data) = false)
    (hayer : containsSubL "ayer".data (lowL text.data) = true) :
    extractDateFromText text today = formatDate (prevDay today) ∧
    (1 < today.day →
      prevDay today = ⟨today.year, today.month, today.day - 1⟩) ∧
    (today.day ≤ 1 → 1 < today.month →
      prevDay today
        = ⟨today.year, today.month - 1, daysInMonth today.year (today.month - 1)⟩) ∧
    (today.day ≤ 1 → today.month ≤ 1 →
      prevDay today = ⟨today.year - 1, 12, 31⟩) := by
  refine ⟨?_, ?_, ?_, ?_⟩
  · simp [extractDateFromText, hpat, hhoy, hayer]
  · intro h1
    rw [prevDay, if_pos h1]
  · intro h1 h2
    rw [prevDay, if_neg (by omega), if_pos h2]
  · intro h1 h2
    rw [prevDay, if_neg (by omega), if_neg (by omega)]

/-- Witness for C4: month rollover into a leap February, and year rollover
on New Year's Day. -/
theorem yesterday_rollover_witness :
    extractDateFromText "ayer" ⟨2024, 3, 1⟩ = "2024-02-29" ∧
    extractDateFromText "ayer" ⟨2024, 1, 1⟩ = "2023-12-31" := by
  constructor
  · exact ((yesterday_rollover "ayer" ⟨2024, 3, 1⟩ (by decide) (by decide)
      (by decide)).1).trans (by decide)
  · exact ((yesterday_rollover "ayer" ⟨2024, 1, 1⟩ (by decide) (by decide)
      (by decide)).1).trans (by decide)

/-- **C5.** When no intent-group keyword occurs in the message, `getIntent`
returns `gasto` exactly when an amount is extractable and the unknown
sentinel (`none`) otherwise; and any non-sentinel answer is one of the five
configured intents. -/
theorem intent_default_policy (text : String) :
    ((∀ p ∈ intentKeywordsList, intentHit (lowL text.data) p = false) →
      getIntent text =
        if (extractAmountFromText text).isSome then some "gasto" else none) ∧
    (∀ r, getIntent text = some r →
      r = "gasto" ∨ r = "ingreso" ∨ r = "meta" ∨ r = "reporte" ∨
      r = "presupuesto") := by
  constructor
  · intro h
    have hf : intentKeywordsList.find? (intentHit (lowL text.data)) = none := by
      rw [List.find?_eq_none]
      intro p hp
      simp [h p hp]
    simp [getIntent, hf]
  · intro r hr
    rcases hfind : intentKeywordsList.find? (intentHit (lowL text.data))
      with _ | p
    · simp only [getIntent, hfind] at hr
      by_cases ha : (extractAmountFromText text).isSome
      · rw [if_pos ha] at hr
        injection hr with hr
        exact Or.inl hr.symm
      · rw [if_neg ha] at hr
        exact absurd hr (by simp)
    · simp only [getIntent, hfind] at hr
      injection hr with hr
      have hmem := List.mem_of_find?_eq_some hfind
      simp only [intentKeywordsList, List.mem_cons, List.not_mem_nil,
        or_false] at hmem
      rcases hmem with h | h | h | h | h <;> (subst h; simp at hr) <;>
        simp [← hr]

/-- Witness for C5: a keyword-free text with an amount defaults to
`gasto`, a keyword-free text without one to the unknown sentinel. -/
theorem intent_default_policy_witness :
    getIntent "$500" = some "gasto" ∧ getIntent "hola mundo" = none := by
  constructor
  · exact ((intent_default_policy "$500").1 (by decide)).trans (by decide)
  · exact ((intent_default_policy "hola mundo").1 (by decide)).trans (by decide)

/-- `List.find?` returns the element at the first index satisfying the
predicate. -/
theorem find_first_true {α : Type} (p : α → Bool) :
    ∀ (l : List α) (i : Nat) (hi : i < l.length),
    p (l.get ⟨i, hi⟩) = true →
    (∀ j (hj : j < l.length), j < i → p (l.get ⟨j, hj⟩) = false) →
    l.find? p = some (l.get ⟨i, hi⟩) := by
  intro l
  induction l with
  | nil =>
    intro i hi
    simp at hi
  | cons a t ih =>
    intro i hi hp hmin
    cases i with
    | zero =>
      simp only [List.get] at hp
      simp [List.find?, hp]
    | succ k =>
      have h0 : p a = false := hmin 0 (by omega) (by omega)
      have hstep : (a :: t).find? p = t.find? p := by
        simp [List.find?, h0]
      rw [hstep]
      exact ih k (by simpa using hi) hp
        (fun j hj hjk => hmin (j + 1) (by omega) (by omega))

/-- **C6.** The category classifier is order-stable: when the keyword lists
of exactly two categories hit the text, the one declared earlier in the
configuration is returned; and with no keyword hit at all, the sentinel
`"otros"` is returned. -/
theorem category_order_stable (text : String) :
    (∀ (i j : Fin expenseCategoriesList.length), (i : Nat) < (j : Nat) →
      catHit (lowL text.data) (expenseCategoriesList.get i) = true →
      catHit (lowL text.data) (expenseCategoriesList.get j) = true →
      (∀ k : Fin expenseCategoriesList.length,
        catHit (lowL text.data) (expenseCategoriesList.get k) = true →
        (k : Nat) = (i : Nat) ∨ (k : Nat) = (j : Nat)) →
      categorizeExpense text = (expenseCategoriesList.get i).1) ∧
    ((∀ p ∈ expenseCategoriesList, catHit (lowL text.data) p = false) →
      categorizeExpense text = "otros") := by
  constructor
  · intro i j hij hpi hpj honly
    have hmin : ∀ m (hm : m < expenseCategoriesList.length), m < (i : Nat) →
        catHit (lowL text.data) (expenseCategoriesList.get ⟨m, hm⟩) = false := by
      intro m hm hmi
      cases hc : catHit (lowL text.data) (expenseCategoriesList.get ⟨m, hm⟩) with
      | false => rfl
      | true =>
        have h : m = (i : Nat) ∨ m = (j : Nat) := by
          simpa using honly ⟨m, hm⟩ hc
        omega
    have hfind := find_first_true (catHit (lowL text.data))
      expenseCategoriesList i i.isLt hpi hmin
    simp only [categorizeExpense, hfind]
  · intro h
    have hf : expenseCategoriesList.find? (catHit (lowL text.data)) = none := by
      rw [List.find?_eq_none]
      intro p hp
      simp [h p hp]
    simp [categorizeExpense, hf]

/-- Witness for C6: `"mercado bar"` hits exactly `supermercado` (declared
first) and `restaurante`, and the earlier one wins; a keyword-free text
falls back to `"otros"`. -/
theorem category_order_stable_witness :
    categorizeExpense "mercado bar" = "supermercado" ∧
    categorizeExpense "xyzw" = "otros" := by
  constructor
  · exact ((category_order_stable "mercado bar").1 ⟨0, by decide⟩
      ⟨1, by decide⟩ (by decide) (by decide) (by decide) (by decide)).trans
      (by decide)
  · exact (category_order_stable "xyzw").2 (by decide)

/-- Splitting an `Option.orElse` that produced a value. -/
theorem orElse_eq_some {α : Type} {x : Option α} {f : Unit → Option α} {v : α}
    (h : x.orElse f = some v) : x = some v ∨ f () = some v := by
  cases x with
  | none =>
    right
    simpa [Option.orElse] using h
  | some a =>
    left
    simpa [Option.orElse] using h

theorem isDigit_toNat_le {c : Char} (h : isDigitChar c = true) :
    48 ≤ c.toNat ∧ c.toNat ≤ 57 := by
  simpa [isDigitChar, Bool.and_eq_true, decide_eq_true_eq] using h

/-- A `\d{1,2}` capture always passes a value of at most 99 to its
continuation. -/
theorem take12Digits_bound {α : Type} (l : List Char)
    (k : Nat → List Char → Option α) (x : α)
    (h : take12Digits l k = some x) :
    ∃ v r, v ≤ 99 ∧ k v r = some x := by
  cases l with
  | nil => simp [take12Digits] at h
  | cons a t =>
    cases t with
    | nil =>
      simp only [take12Digits] at h
      split_ifs at h with ha
      have hb := isDigit_toNat_le ha
      exact ⟨a.toNat - 48, [], by omega, h⟩
    | cons b t2 =>
      simp only [take12Digits] at h
      split_ifs at h with ha hb
      · have ha' := isDigit_toNat_le ha
        have hb' := isDigit_toNat_le hb
        rcases orElse_eq_some h with h' | h'
        · exact ⟨(a.toNat - 48) * 10 + (b.toNat - 48), t2, by omega, h'⟩
        · exact ⟨a.toNat - 48, b :: t2, by omega, h'⟩
      · have ha' := isDigit_toNat_le ha
        exact ⟨a.toNat - 48, b :: t2, by omega, h⟩

theorem datePat0After_bound {r : List Char} {d m : Nat} {y : Option Nat}
    (h : datePat0After r = some (d, m, y)) : d ≤ 99 ∧ m ≤ 99 := by
  unfold datePat0After at h
  obtain ⟨v, r', hv, hk⟩ := take12Digits_bound _ _ _ h
  cases r' with
  | nil => simp [datePat0AfterDay] at hk
  | cons s rest2 =>
    simp only [datePat0AfterDay] at hk
    split_ifs at hk with hs
    obtain ⟨v2, r2, hv2, hk2⟩ := take12Digits_bound _ _ _ hk
    unfold datePat0Pair at hk2
    simp only [Option.some.injEq, Prod.mk.injEq] at hk2
    obtain ⟨h1, h2, _⟩ := hk2
    omega

theorem datePat0Here_bound {l : List Char} {d m : Nat} {y : Option Nat}
    (h : datePat0Here l = some (d, m, y)) : d ≤ 99 ∧ m ≤ 99 := by
  simp only [datePat0Here, List.foldr] at h
  rcases orElse_eq_some h with h1 | h1
  · rcases hci : ciLeadsL "el".data l with _ | r <;> rw [hci] at h1
    · simp at h1
    · exact datePat0After_bound h1
  rcases orElse_eq_some h1 with h2 | h2
  · rcases hci : ciLeadsL "del".data l with _ | r <;> rw [hci] at h2
    · simp at h2
    · exact datePat0After_bound h2
  rcases orElse_eq_some h2 with h3 | h3
  · rcases hci : ciLeadsL "fecha".data l with _ | r <;> rw [hci] at h3
    · simp at h3
    · exact datePat0After_bound h3
  · simp at h3

theorem datePat0_bound (l : List Char) (d m : Nat) (y : Option Nat)
    (h : datePat0 l = some (d, m, y)) : d ≤ 99 ∧ m ≤ 99 := by
  induction l with
  | nil => simp [datePat0] at h
  | cons c cs ih =>
    simp only [datePat0] at h
    rcases orElse_eq_some h with h1 | h1
    · exact datePat0Here_bound h1
    · exact ih h1

theorem daysInMonth_le (y m : Nat) : daysInMonth y m ≤ 31 := by
  unfold daysInMonth
  split_ifs <;> omega

theorem daysInMonth_pos (y m : Nat) : 1 ≤ daysInMonth y m := by
  unfold daysInMonth
  split_ifs <;> omega

theorem validDate_elim {d : SimpleDate} (h : validDate d = true) :
    1 ≤ d.month ∧ d.month ≤ 12 ∧ 1 ≤ d.day ∧
    d.day ≤ daysInMonth d.year d.month := by
  simpa [validDate, Bool.and_eq_true, decide_eq_true_eq, and_assoc] using h

/-- The calendar decrement preserves validity. -/
theorem validDate_prevDay {d : SimpleDate} (h : validDate d = true) :
    validDate (prevDay d) = true := by
  obtain ⟨h1, h2, h3, h4⟩ := validDate_elim h
  unfold prevDay
  split_ifs with ha hb
  · simp only [validDate, Bool.and_eq_true, decide_eq_true_eq, and_assoc]
    exact ⟨h1, h2, by omega, by omega⟩
  · simp only [validDate, Bool.and_eq_true, decide_eq_true_eq, and_assoc]
    exact ⟨by omega, by omega, daysInMonth_pos _ _, le_refl _⟩
  · simp only [validDate, Bool.and_eq_true, decide_eq_true_eq, and_assoc]
    have h12 : daysInMonth (d.year - 1) 12 = 31 := rfl
    exact ⟨by omega, by omega, by omega, by omega⟩

theorem dateString_ne_empty (y m d : Nat) : dateString y m d ≠ "" := by
  unfold dateString
  intro h
  have hd := congrArg String.data h
  simp at hd

/-- **C3 counterexample.** The explicit date pattern copies its one-or-two
digit day and month groups verbatim, so `"el 45/99"` is rendered as the
non-existent date `"2024-99-45"`. -/
theorem date_validity_counterexample :
    extractDateFromText "el 45/99" ⟨2024, 3, 10⟩ = "2024-99-45" ∧
    validDateString (extractDateFromText "el 45/99" ⟨2024, 3, 10⟩) = false ∧
    validDate ⟨2024, 3, 10⟩ = true := by
  refine ⟨by decide, by decide, by decide⟩

/-- **C3 amended.** For any text and valid processing date, the extractor
always returns a nonempty string of the `year-month-day` rendering with
two-digit-padded month and day fields (both at most 99), and returns the
processing date itself when the text carries no date signal; but when the
explicit numeric pattern matches, the month and day are the captured
numbers verbatim and need not form an existing calendar date. -/
theorem date_always_rendered (text : String) (today : SimpleDate)
    (hv : validDate today = true) :
    (∃ y m d, m ≤ 99 ∧ d ≤ 99 ∧
      extractDateFromText text today = dateString y m d) ∧
    extractDateFromText text today ≠ "" ∧
    (datePat0 text.data = none →
     containsSubL "hoy".data (lowL text.data) = false →
     containsSubL "ayer".data (lowL text.data) = false →
     containsSubL "anteayer".data (lowL text.data) = false →
     extractDateFromText text today = formatDate today) := by
  have hex : ∃ y m d, m ≤ 99 ∧ d ≤ 99 ∧
      extractDateFromText text today = dateString y m d := by
    rcases hp : datePat0 text.data with _ | ⟨day, month, yy⟩
    · have hv1 := validDate_prevDay hv
      have hv2 := validDate_prevDay hv1
      have hb0 := validDate_elim hv
      have hb1 := validDate_elim hv1
      have hb2 := validDate_elim hv2
      have hd0 := daysInMonth_le today.year today.month
      have hd1 := daysInMonth_le (prevDay today).year (prevDay today).month
      have hd2 := daysInMonth_le (prevDay (prevDay today)).year
        (prevDay (prevDay today)).month
      have heval : extractDateFromText text today =
          (if containsSubL "hoy".data (lowL text.data) = true then
            formatDate today
          else if containsSubL "ayer".data (lowL text.data) = true then
            formatDate (prevDay today)
          else if containsSubL "anteayer".data (lowL text.data) = true then
            formatDate (prevDay (prevDay today))
          else formatDate today) := by
        simp [extractDateFromText, hp]
      rw [heval]
      split_ifs
      · exact ⟨today.year, today.month, today.day, by omega, by omega, rfl⟩
      · exact ⟨(prevDay today).year, (prevDay today).month,
          (prevDay today).day, by omega, by omega, rfl⟩
      · exact ⟨(prevDay (prevDay today)).year, (prevDay (prevDay today)).month,
          (prevDay (prevDay today)).day, by omega, by omega, rfl⟩
      · exact ⟨today.year, today.month, today.day, by omega, by omega, rfl⟩
    · have hb := datePat0_bound text.data day month yy hp
      refine ⟨(if yy.getD today.year < 100 then
          (if yy.getD today.year < 50 then yy.getD today.year + 2000
           else yy.getD today.year + 1900)
          else yy.getD today.year), month, day, hb.2, hb.1, ?_⟩
      simp [extractDateFromText, hp]
  refine ⟨hex, ?_, ?_⟩
  · obtain ⟨y, m, d, _, _, heq⟩ := hex
    rw [heq]
    exact dateString_ne_empty y m d
  · intro h1 h2 h3 h4
    simp [extractDateFromText, h1, h2, h3, h4]

/-- Witness for C3 amended: a dateless text on a valid processing date. -/
theorem date_always_rendered_witness :
    validDate ⟨2024, 3, 10⟩ = true ∧
    extractDateFromText "cosa" ⟨2024, 3, 10⟩ = formatDate ⟨2024, 3, 10⟩ ∧
    extractDateFromText "cosa" ⟨2024, 3, 10⟩ ≠ "" :=
  ⟨by decide,
   (date_always_rendered "cosa" ⟨2024, 3, 10⟩ (by decide)).2.2 (by decide)
     (by decide) (by decide) (by decide),
   (date_always_rendered "cosa" ⟨2024, 3, 10⟩ (by decide)).2.1⟩

/-- **C7 counterexample.** `"ernet"` is a substring of exactly one
configured keyword (`internet`, of `servicios`) and of no category key,
yet the budget fuzzy match signals failure: the code tests whether the
*input contains the keyword*, not whether the keyword contains the input. -/
theorem budget_fuzzy_counterexample :
    containsSubL "ernet".data "internet".data = true ∧
    expenseCategoriesList.any
      (fun p => p.1 = "servicios" && p.2.contains "internet") = true ∧
    (∀ p ∈ expenseCategoriesList, ∀ kw ∈ p.2,
      containsSubL "ernet".data kw.data = true → kw = "internet") ∧
    (∀ p ∈ expenseCategoriesList,
      containsSubL "ernet".data p.1.data = false) ∧
    bestBudgetCategory "ernet" = none := by
  refine ⟨by decide, by decide, by decide, by decide, by decide⟩

/-- Keywords that the input does not contain leave the running best
unchanged. -/
theorem budgetKw_skip (name : List Char) (cat : String) (ks : List String)
    (st : Option String × Nat)
    (h : ∀ kw ∈ ks, containsSubL kw.data name = false) :
    ks.foldl (budgetKwStep name cat) st = st := by
  induction ks generalizing st with
  | nil => rfl
  | cons k t ih =>
    have hk := h k (by simp)
    simp only [List.foldl, budgetKwStep, hk, Bool.false_eq_true, if_false]
    exact ih st (fun kw hkw => h kw (by simp [hkw]))

/-- Once the best category is `cat`, the keyword fold of `cat` keeps it
(and never lowers the score). -/
theorem budgetKw_pres (name : List Char) (cat : String) (ks : List String)
    (st : Option String × Nat) (h : st.1 = some cat) :
    (ks.foldl (budgetKwStep name cat) st).1 = some cat ∧
    st.2 ≤ (ks.foldl (budgetKwStep name cat) st).2 := by
  induction ks generalizing st with
  | nil => exact ⟨h, le_refl _⟩
  | cons k t ih =>
    simp only [List.foldl]
    cases hc : containsSubL k.data name with
    | false =>
      simp only [budgetKwStep, hc, Bool.false_eq_true, if_false]
      exact ih st h
    | true =>
      simp only [budgetKwStep, hc, if_true]
      by_cases hlt : st.2 < k.length
      · rw [if_pos hlt]
        obtain ⟨ha, hb⟩ := ih (some cat, k.length) rfl
        exact ⟨ha, by simp at hb ⊢; omega⟩
      · rw [if_neg hlt]
        exact ih st h

/-- A keyword fold that starts at score zero and contains at least one
nonempty hit ends at `cat` with a positive score. -/
theorem budgetKw_hits (name : List Char) (cat : String) (ks : List String)
    (st : Option String × Nat) (hst : st.2 = 0)
    (hlen : ∀ kw ∈ ks, 1 ≤ kw.length)
    (hex : ∃ kw ∈ ks, containsSubL kw.data name = true) :
    (ks.foldl (budgetKwStep name cat) st).1 = some cat ∧
    1 ≤ (ks.foldl (budgetKwStep name cat) st).2 := by
  induction ks generalizing st with
  | nil =>
    obtain ⟨kw, hmem, _⟩ := hex
    simp at hmem
  | cons k t ih =>
    simp only [List.foldl]
    cases hc : containsSubL k.data name with
    | true =>
      have hk1 : 1 ≤ k.length := hlen k (by simp)
      have hlt : st.2 < k.length := by omega
      simp only [budgetKwStep, hc, if_true, if_pos hlt]
      obtain ⟨ha, hb⟩ := budgetKw_pres name cat t (some cat, k.length) rfl
      refine ⟨ha, ?_⟩
      simp at hb
      omega
    | false =>
      simp only [budgetKwStep, hc, Bool.false_eq_true, if_false]
      obtain ⟨kw, hmem, hkw⟩ := hex
      rcases List.mem_cons.mp hmem with rfl | hmem'
      · rw [hc] at hkw
        exact absurd hkw (by simp)
      · exact ih st hst (fun kw' h' => hlen kw' (by simp [h'])) ⟨kw, hmem', hkw⟩

/-- A category with no key containment in either direction and no keyword
contained in the input leaves the state unchanged. -/
theorem budgetStep_skip (name : List Char) (s : Option String × Nat)
    (p : String × List String)
    (hkey : containsSubL p.1.data name = false ∧
      containsSubL name p.1.data = false)
    (hkw : ∀ kw ∈ p.2, containsSubL kw.data name = false) :
    budgetStep name s p = s := by
  unfold budgetStep
  rw [hkey.1, hkey.2]
  simp only [Bool.or_self, Bool.false_eq_true, if_false]
  exact budgetKw_skip name p.1 p.2 s hkw

theorem budgetFold_skip (name : List Char) (l : List (String × List String))
    (s : Option String × Nat)
    (h : ∀ p ∈ l, (containsSubL p.1.data name = false ∧
      containsSubL name p.1.data = false) ∧
      ∀ kw ∈ p.2, containsSubL kw.data name = false) :
    l.foldl (budgetStep name) s = s := by
  induction l generalizing s with
  | nil => rfl
  | cons p t ih =>
    simp only [List.foldl]
    rw [budgetStep_skip name s p (h p (by simp)).1 (h p (by simp)).2]
    exact ih s (fun q hq => h q (by simp [hq]))

/-- **C7 amended.** In the budget fuzzy match, a free-text category name
that *contains* exactly one configured category's keyword (and has no
substring relation, in either direction, with any category key) selects
that category; and a name with no substring relation to any key or keyword
signals failure. -/
theorem budget_fuzzy_match_amended (name : String) :
    (∀ (c : String) (kws : List String) (kw : String),
      (c, kws) ∈ expenseCategoriesList → kw ∈ kws →
      containsSubL kw.data name.data = true →
      (∀ p ∈ expenseCategoriesList, ∀ k ∈ p.2,
        containsSubL k.data name.data = true → p.1 = c) →
      (∀ p ∈ expenseCategoriesList,
        containsSubL p.1.data name.data = false ∧
        containsSubL name.data p.1.data = false) →
      bestBudgetCategory name = some c) ∧
    ((∀ p ∈ expenseCategoriesList,
        (containsSubL p.1.data name.data = false ∧
         containsSubL name.data p.1.data = false) ∧
        ∀ k ∈ p.2, containsSubL k.data name.data = false) →
      bestBudgetCategory name = none) := by
  constructor
  · intro c kws kw hmem hkw hmatch honly hkeys
    have hlen : ∀ p ∈ expenseCategoriesList, ∀ k ∈ p.2, 1 ≤ k.length := by
      decide
    obtain ⟨l1, l2, hsplit⟩ := List.append_of_mem hmem
    have hnodup : (expenseCategoriesList.map Prod.fst).Nodup := by decide
    rw [hsplit, List.map_append, List.map_cons] at hnodup
    have hdisj := List.disjoint_of_nodup_append hnodup
    have hc1 : c ∉ l1.map Prod.fst := fun hc => hdisj hc (by simp)
    have hc2 : c ∉ l2.map Prod.fst := by
      have h2 := hnodup.of_append_right
      exact (List.nodup_cons.mp h2).1
    have hsub1 : ∀ p, p ∈ l1 → p ∈ expenseCategoriesList := by
      intro p hp
      rw [hsplit]
      exact List.mem_append_left _ hp
    have hsub2 : ∀ p, p ∈ l2 → p ∈ expenseCategoriesList := by
      intro p hp
      rw [hsplit]
      exact List.mem_append_right _ (List.mem_cons_of_mem _ hp)
    have hcond : ∀ (l' : List (String × List String)),
        (∀ p, p ∈ l' → p ∈ expenseCategoriesList) →
        (c ∉ l'.map Prod.fst) →
        ∀ p ∈ l', (containsSubL p.1.data name.data = false ∧
          containsSubL name.data p.1.data = false) ∧
          ∀ k ∈ p.2, containsSubL k.data name.data = false := by
      intro l' hsub hcnot p hp
      refine ⟨hkeys p (hsub p hp), ?_⟩
      intro k hk
      cases hck : containsSubL k.data name.data with
      | false => rfl
      | true =>
        have hpc := honly p (hsub p hp) k hk hck
        exact absurd (hpc ▸ List.mem_map_of_mem Prod.fst hp) hcnot
    unfold bestBudgetCategory bestCategoryAux
    rw [hsplit, List.foldl_append,
      budgetFold_skip name.data l1 (none, 0) (hcond l1 hsub1 hc1),
      List.foldl_cons]
    have hkey_c := hkeys (c, kws) hmem
    have hs1 : budgetStep name.data (none, 0) (c, kws)
        = kws.foldl (budgetKwStep name.data c) (none, 0) := by
      unfold budgetStep
      rw [hkey_c.1, hkey_c.2]
      simp
    obtain ⟨ha, hb⟩ := budgetKw_hits name.data c kws (none, 0) rfl
      (fun k hk => hlen (c, kws) hmem k hk) ⟨kw, hkw, hmatch⟩
    rw [hs1, budgetFold_skip name.data l2 _ (hcond l2 hsub2 hc2)]
    exact ha
  · intro h
    unfold bestBudgetCategory bestCategoryAux
    rw [budgetFold_skip name.data expenseCategoriesList (none, 0) h]

/-- Witness for C7 amended: `"internet"` contains exactly the keyword
`internet` of `servicios` and is selected; `"zzz"` has no substring
relation to anything and fails. -/
theorem budget_fuzzy_match_amended_witness :
    bestBudgetCategory "internet" = some "servicios" ∧
    bestBudgetCategory "zzz" = none :=
  ⟨(budget_fuzzy_match_amended "internet").1 "servicios"
      ["electricidad", "agua", "gas", "internet", "teléfono", "celular",
       "factura", "servicio", "wifi", "etb", "wom"] "internet"
      (by decide) (by decide) (by decide) (by decide) (by decide),
   (budget_fuzzy_match_amended "zzz").2 (by decide)⟩

end FinanceBot
